import Mathlib

set_option maxRecDepth 8000

/-!
Verification of the 5G-Authentication-Performance monitor
(`Memoryusage.py`): a shallow embedding of its data model and the
operations of `monitor_log` (the Event Window Tracker),
`analyze_and_write` (the Window Correlator / Report Writer), the
sampler loop condition and the signal handler, together with theorems
about the spec's claims.

Timestamps are modelled as rationals (seconds); log lines as lists of
characters (the logs are ASCII, so Python's `\d` coincides with
`Char.isDigit`).
-/

namespace Monitor

/-- An entity identifier: the 6-digit suffix extracted from a log line. -/
abbrev UeId := List Char

/-- One UE registration window, mirroring the Python dict
`{"start": None, "end": None}` (`Memoryusage.py` line 29).  `endT` is the
Python `"end"` field (`end` is a Lean keyword). -/
structure Window where
  start : Option ℚ
  endT : Option ℚ
deriving DecidableEq, Repr

instance : Inhabited Window := ⟨⟨none, none⟩⟩

instance : Nonempty Window := ⟨⟨none, none⟩⟩

/-- The `ue_windows` map: a Python dict is insertion-ordered, modelled as
an association list. -/
abbrev UeWindows := List (UeId × Window)

/-- The initial, empty `ue_windows` map. -/
def emptyW : UeWindows := []

/-- The key-equality predicate of a dict access. -/
def keyPred (u : UeId) : UeId × Window → Bool := fun p => decide (p.1 = u)

/-- Reading `ue_windows[ue]` as a value: the stored entry when the key is
present, otherwise the defaultdict default `{"start": None, "end": None}`. -/
def lookupW (m : UeWindows) (u : UeId) : Window :=
  ((m.find? (keyPred u)).map (·.2)).getD ⟨none, none⟩

/-- Whether `ue` is already a key of the dict. -/
def hasKey (m : UeWindows) (u : UeId) : Bool :=
  m.any (keyPred u)

/-- A defaultdict access `ue_windows[ue]` inserts the default entry when
the key is absent (at the end, preserving insertion order). -/
def accessEntry (m : UeWindows) (u : UeId) : UeWindows :=
  if hasKey m u then m else m ++ [(u, ⟨none, none⟩)]

/-- The assignment `ue_windows[ue]["start"] = ts`. -/
def setStart (m : UeWindows) (u : UeId) (t : ℚ) : UeWindows :=
  m.map (fun p => if p.1 = u then (p.1, ⟨some t, p.2.endT⟩) else p)

/-- The assignment `ue_windows[ue]["end"] = ts`. -/
def setEnd (m : UeWindows) (u : UeId) (t : ℚ) : UeWindows :=
  m.map (fun p => if p.1 = u then (p.1, ⟨p.2.start, some t⟩) else p)

/-!
The two identifier regexes of `Memoryusage.py` lines 86-87:
  `re.search(r"suci-[\d\-]+(\d{6})", line)`  and
  `re.search(r"imsi-\d+(\d{6})", line)`.
`re.search` finds the leftmost starting position at which the whole
pattern matches; the `+` quantifiers are greedy with backtracking, so the
captured group `(\d{6})` is the rightmost 6-digit window of the
digit/dash (resp. digit) run that leaves at least one character for the
preceding `+`.
-/

/-- Characters matched by `[\d\-]` in the suci pattern. -/
def isDigitOrDash (c : Char) : Bool := c.isDigit || c = '-'

/-- The literal `suci-` marker. -/
def suciMark : List Char := "suci-".toList

/-- The literal `imsi-` marker. -/
def imsiMark : List Char := "imsi-".toList

/-- Backtracking for `[\d\-]+(\d{6})` over the maximal `[\d\-]` run
`run`: try group offsets `k, k-1, ..., 1` (greedy: largest first) and
return the first 6-character all-digit window `run[k..k+6)`. -/
def suciGroupAux (run : List Char) : Nat → Option UeId
  | 0 => none
  | k + 1 =>
    let win := (run.drop (k + 1)).take 6
    if win.length = 6 ∧ win.all Char.isDigit then some win
    else suciGroupAux run k

/-- `re.search(r"suci-[\d\-]+(\d{6})", line)`: scan left to right for a
position where `suci-` is followed by a digit/dash run admitting a
trailing 6-digit group; return the captured group. -/
def searchSuci : List Char → Option UeId
  | [] => none
  | c :: rest =>
    if suciMark.isPrefixOf (c :: rest) then
      let run := ((c :: rest).drop 5).takeWhile isDigitOrDash
      match suciGroupAux run (run.length - 6) with
      | some g => some g
      | none => searchSuci rest
    else searchSuci rest

/-- `re.search(r"imsi-\d+(\d{6})", line)`: scan for `imsi-` followed by a
digit run of length at least 7 (`\d+` needs one digit before the group);
greedy backtracking captures the last 6 digits of the run. -/
def searchImsi : List Char → Option UeId
  | [] => none
  | c :: rest =>
    if imsiMark.isPrefixOf (c :: rest) then
      let run := ((c :: rest).drop 5).takeWhile Char.isDigit
      if 7 ≤ run.length then some (run.drop (run.length - 6))
      else searchImsi rest
    else searchImsi rest

/-- Python's substring test `needle in hay`. -/
def containsSub (needle : List Char) : List Char → Bool
  | [] => needle.isEmpty
  | c :: rest => needle.isPrefixOf (c :: rest) || containsSub needle rest

/-- The literal required on a closing line (`Memoryusage.py` line 94). -/
def regCompleteStr : List Char := "Registration complete".toList

/-- Lines 89-92 of `Memoryusage.py`: on an open-marker match, access
`ue_windows[ue]` (creating the default entry) and set `start` only if it
is still `None`. -/
def openEvent (m : UeWindows) (u : UeId) (t : ℚ) : UeWindows :=
  let m1 := accessEntry m u
  if (lookupW m1 u).start = none then setStart m1 u t else m1

/-- Lines 94-97 of `Memoryusage.py`: on a qualifying close-marker match,
access `ue_windows[ue]` and set `end` only if it is still `None`. -/
def closeEvent (m : UeWindows) (u : UeId) (t : ℚ) : UeWindows :=
  let m1 := accessEntry m u
  if (lookupW m1 u).endT = none then setEnd m1 u t else m1

/-- The `if suci_match:` block (lines 89-92). -/
def suciStep (m : UeWindows) (l : List Char) (t : ℚ) : UeWindows :=
  match searchSuci l with
  | some u => openEvent m u t
  | none => m

/-- The `if imsi_match and "Registration complete" in line:` block
(lines 94-97). -/
def imsiStep (m : UeWindows) (l : List Char) (t : ℚ) : UeWindows :=
  match searchImsi l with
  | some u => if containsSub regCompleteStr l then closeEvent m u t else m
  | none => m

/-- Processing of one log line at capture timestamp `t`
(`Memoryusage.py` lines 84-97): both marker blocks run in order on the
same line with the same timestamp. -/
def processLine (m : UeWindows) (l : List Char) (t : ℚ) : UeWindows :=
  imsiStep (suciStep m l t) l t

/-- Processing a sequence of (line, timestamp) pairs in order. -/
def processLines (m : UeWindows) : List (List Char × ℚ) → UeWindows
  | [] => m
  | (l, t) :: rest => processLines (processLine m l t) rest

/-!
The monitoring loop of `monitor_log` (`Memoryusage.py` lines 78-106) and
the sampler/signal machinery (lines 35-41 and 59-68).
-/

/-- Lines 99-104: the number of entities whose windows have both `start`
and `end` set (Python truthiness on a datetime is `isSome`). -/
def countCompleted (m : UeWindows) : Nat :=
  (m.filter (fun p => p.2.start.isSome && p.2.endT.isSome)).length

/-- The `while True` loop of `monitor_log`: each step either reads no
line (`f.readline()` empty: sleep 0.05 s and continue) or reads one line,
processes it and breaks exactly when the completed count reaches
`expected`.  The input list is the finite observation of successive
reads; `some m` means the loop returned with final state `m`, `none`
means it was still looping when the observation ran out.  The loop body
consults no stop flag. -/
def monitorLoop (expected : Nat) : UeWindows → List (Option (List Char × ℚ)) → Option UeWindows
  | _, [] => none
  | m, none :: rest => monitorLoop expected m rest
  | m, some (l, t) :: rest =>
    let m1 := processLine m l t
    if expected ≤ countCompleted m1 then some m1 else monitorLoop expected m1 rest

/-- The two module-level flags mutated by `_handle_signal`
(`Memoryusage.py` lines 24-26: `sampling = True`, `stop_event`). -/
structure MonitorFlags where
  sampling : Bool
  stopEvent : Bool
deriving DecidableEq

/-- `_handle_signal` (lines 35-38): sets `sampling = False` and
`stop_event.set()`, whatever the previous flag state. -/
def handleSignal (_f : MonitorFlags) : MonitorFlags := ⟨false, true⟩

/-- The sampler loop guard `while sampling and not stop_event.is_set()`
(line 61). -/
def samplerContinues (f : MonitorFlags) : Bool := f.sampling && !f.stopEvent

/-!
The Window Correlator: `analyze_and_write` (`Memoryusage.py`
lines 112-205).  CPU/memory samples are `(ts, cpu, mem)` triples.
Python's `round(x, n)`, applied to these small decimal quantities, is
modelled as exact half-even decimal rounding on rationals.
-/

/-- One `(ts, cpu, mem)` triple appended by the sampler (line 66). -/
structure Sample where
  ts : ℚ
  cpu : ℚ
  mem : ℚ
deriving DecidableEq, Repr

/-- One row of `per_ue_rows` (line 128): `(ue, start, end, round(duration, 3))`. -/
structure DetailRow where
  ue : UeId
  start : ℚ
  endT : ℚ
  duration : ℚ
deriving DecidableEq, Repr

/-- The computed part of `summary_row` (lines 169-176); the leading
wall-clock timestamp string (`datetime.now()` at write time) is not
derived from the run data and is omitted. -/
structure Summary where
  numUes : Nat
  totalTime : ℚ
  avgUeTime : ℚ
  cpuAvg : ℚ
  memAvg : ℚ
deriving DecidableEq, Repr

/-- Round-half-even to an integer. -/
def rhalfEven (x : ℚ) : ℤ :=
  let f := x.floor
  let r := x - f
  if r < 1 / 2 then f
  else if 1 / 2 < r then f + 1
  else if f % 2 = 0 then f else f + 1

/-- Python's `round(x, k)` on exact decimal data. -/
def roundTo (k : Nat) (x : ℚ) : ℚ :=
  (rhalfEven (x * (10 : ℚ) ^ k) : ℚ) / (10 : ℚ) ^ k

/-- Python's `min` over a nonempty list (the empty case is unreachable:
`analyze` guards `per_ue_rows` nonempty before taking min/max). -/
def minQ : List ℚ → ℚ
  | [] => 0
  | x :: xs => xs.foldl (fun a b => if a ≤ b then a else b) x

/-- Python's `max` over a nonempty list. -/
def maxQ : List ℚ → ℚ
  | [] => 0
  | x :: xs => xs.foldl (fun a b => if b ≤ a then a else b) x

/-- Lines 122-130: the complete windows, in dict insertion order, as
`per_ue_rows` entries; incomplete windows are skipped. -/
def completeRows (m : UeWindows) : List DetailRow :=
  m.filterMap (fun p =>
    match p.2.start, p.2.endT with
    | some s, some e => some ⟨p.1, s, e, roundTo 3 (e - s)⟩
    | _, _ => none)

/-- Line 140: `global_start = min(all_start_times)`. -/
def globalStart (rows : List DetailRow) : ℚ := minQ (rows.map (·.start))

/-- Line 141: `global_end = max(all_end_times)`. -/
def globalEnd (rows : List DetailRow) : ℚ := maxQ (rows.map (·.endT))

/-- Lines 144-146: the samples whose timestamp lies inside the inclusive
global window. -/
def globalSamples (rows : List DetailRow) (samples : List Sample) : List Sample :=
  samples.filter (fun s => decide (globalStart rows ≤ s.ts ∧ s.ts ≤ globalEnd rows))

/-- The observable outcome of `analyze_and_write`: one of the three
early-return warnings (no file touched), or the summary row and detail
table it writes. -/
inductive AnalyzeResult where
  | warnNoSamples
  | warnNoCompleteWindows
  | warnNoSamplesInWindow
  | written (summary : Summary) (detail : List DetailRow)
deriving DecidableEq, Repr

/-- `analyze_and_write` (lines 112-205) as a function of the collected
window map and sample store. -/
def analyze (m : UeWindows) (samples : List Sample) : AnalyzeResult :=
  if samples.isEmpty then .warnNoSamples
  else
    let rows := completeRows m
    if rows.isEmpty then .warnNoCompleteWindows
    else
      let avgUe := (rows.map (·.duration)).sum / (rows.length : ℚ)
      let gs := globalStart rows
      let ge := globalEnd rows
      let gsamps := globalSamples rows samples
      if gsamps.isEmpty then .warnNoSamplesInWindow
      else
        .written
          ⟨rows.length, roundTo 3 (ge - gs), roundTo 3 avgUe,
            roundTo 2 ((gsamps.map (·.cpu)).sum / (gsamps.length : ℚ)),
            roundTo 2 ((gsamps.map (·.mem)).sum / (gsamps.length : ℚ))⟩
          rows

/-- Whether `analyze_and_write` wrote any output file. -/
def writesOutput : AnalyzeResult → Bool
  | .written _ _ => true
  | _ => false

/-!
The Report Writer's summary file (lines 178-185): one header plus data
rows, and its append behaviour across runs.
-/

/-- One line of the summary CSV. -/
inductive SummaryLine where
  | header
  | data (s : Summary)
deriving DecidableEq

/-- Lines 178-183: `write_header = not CSV_FILE.exists()`; open in append
mode; write the header iff the file did not exist, then the one summary
row.  `none` models an absent file. -/
def appendSummaryFile (file : Option (List SummaryLine)) (s : Summary) : List SummaryLine :=
  match file with
  | none => [.header, .data s]
  | some rows => rows ++ [.data s]

/-- Number of header lines in a summary file. -/
def headerCount (f : List SummaryLine) : Nat :=
  (f.filter (fun r => match r with | .header => true | _ => false)).length

/-- The data rows of a summary file, in order. -/
def dataRows (f : List SummaryLine) : List Summary :=
  f.filterMap (fun r => match r with | .header => none | .data s => some s)

/-!
The file-level effects of the two `with open(...)` blocks of
`analyze_and_write`, in program order.
-/

/-- File-system operations issued by the Report Writer. -/
inductive FileOp where
  | openAppend
  | openWrite
  | writeRow
  | flush
  | fsync
  | close
deriving DecidableEq, Repr

/-- Lines 178-185: the summary write opens in append mode, writes the
header when the file was absent, writes the summary row, then
`f.flush()` and `os.fsync(f.fileno())`, and the `with` block closes. -/
def summaryWriteOps (writeHeader : Bool) : List FileOp :=
  [.openAppend] ++ (if writeHeader then [.writeRow] else []) ++
    [.writeRow, .flush, .fsync, .close]

/-- Lines 192-203: the per-UE detail write opens in write mode, writes
the header row and one row per entity, and the `with` block closes; no
flush or fsync is issued. -/
def perUeWriteOps (numRows : Nat) : List FileOp :=
  [.openWrite, .writeRow] ++ List.replicate numRows .writeRow ++ [.close]

/-- The open-marker predicate on a (line, timestamp) pair, for entity `u`. -/
def openMarks (u : UeId) : List Char × ℚ → Bool :=
  fun p => decide (searchSuci p.1 = some u)

/-- The qualifying close-marker predicate on a (line, timestamp) pair. -/
def closeMarks (u : UeId) : List Char × ℚ → Bool :=
  fun p => decide (searchImsi p.1 = some u ∧ containsSub regCompleteStr p.1 = true)

/-!
Concrete fixtures used by the claims below.
-/

/-- Entity id `000001`. -/
def ueA : UeId := "000001".toList

/-- Entity id `000002`. -/
def ueB : UeId := "000002".toList

/-- Entity id `000003`. -/
def ueC : UeId := "000003".toList

/-- An open-marker log line for entity `000001`. -/
def demoLineA : List Char :=
  "[gmm] INFO: [suci-0-208-93-0-0-0-0000000001] Registration request".toList

/-- A qualifying close-marker log line for entity `000001`. -/
def demoLineB : List Char :=
  "[gmm] INFO: [imsi-208930000000001] Registration complete".toList

/-- A two-line trace: entity `000001` opens at t = 1 and closes at t = 4. -/
def demoLines : List (List Char × ℚ) := [(demoLineA, 1), (demoLineB, 4)]

/-- A window map with exactly one completed window. -/
def c1Windows : UeWindows := [(ueA, ⟨some 0, some 1⟩)]

/-- The three windows [0,2], [1,3], [2,5] of the spec's aggregate test. -/
def c4Wins : UeWindows :=
  [(ueA, ⟨some 0, some 2⟩), (ueB, ⟨some 1, some 3⟩), (ueC, ⟨some 2, some 5⟩)]

/-- Uniform 1 Hz samples with CPU = 10 %, memory = 100 MB over t = 0..5. -/
def c4Samples : List Sample :=
  [⟨0, 10, 100⟩, ⟨1, 10, 100⟩, ⟨2, 10, 100⟩, ⟨3, 10, 100⟩, ⟨4, 10, 100⟩, ⟨5, 10, 100⟩]

/-- The expected detail rows for the aggregate test. -/
def c4Rows : List DetailRow :=
  [⟨ueA, 0, 2, 2⟩, ⟨ueB, 1, 3, 2⟩, ⟨ueC, 2, 5, 3⟩]

/-- One complete window [10,20]. -/
def c5Wins : UeWindows := [(ueA, ⟨some 10, some 20⟩)]

/-- One sample at t = 0, outside the window [10,20]. -/
def c5Samples : List Sample := [⟨0, 5, 50⟩]

/-- One incomplete window (opened, never closed). -/
def c5IncompleteWins : UeWindows := [(ueA, ⟨some 1, none⟩)]

/-- A reversed window [5,2] next to a normal window [0,10]. -/
def c9Wins : UeWindows := [(ueA, ⟨some 5, some 2⟩), (ueB, ⟨some 0, some 10⟩)]

/-- One sample at t = 1, inside the global window [0,10]. -/
def c9Samples : List Sample := [⟨1, 4, 8⟩]

/-!
Lemmas about the window-map operations.
-/

theorem lookupW_eq_find? (m : UeWindows) (u : UeId) :
    lookupW m u = ((m.find? (keyPred u)).map (·.2)).getD ⟨none, none⟩ := rfl

theorem hasKey_iff_find?_isSome (m : UeWindows) (u : UeId) :
    hasKey m u = (m.find? (keyPred u)).isSome := by
  rw [Bool.eq_iff_iff]
  simp [hasKey, keyPred, List.find?_isSome, List.any_eq_true]

/-- A defaultdict access does not change any observed window value. -/
theorem lookupW_accessEntry (m : UeWindows) (u v : UeId) :
    lookupW (accessEntry m v) u = lookupW m u := by
  unfold accessEntry
  split
  · rfl
  · simp only [lookupW, List.find?_append]
    cases h : m.find? (keyPred u) with
    | some p => simp
    | none =>
      by_cases hvu : v = u <;> simp [List.find?, keyPred, hvu]

theorem hasKey_accessEntry (m : UeWindows) (u : UeId) :
    hasKey (accessEntry m u) u = true := by
  unfold accessEntry
  split
  · assumption
  · simp [hasKey, List.any_eq_true]
    exact Or.inr (by simp [keyPred])

theorem lookupW_of_hasKey_false (m : UeWindows) (u : UeId) (h : hasKey m u = false) :
    lookupW m u = ⟨none, none⟩ := by
  rw [lookupW_eq_find?, hasKey_iff_find?_isSome] at *
  cases hf : m.find? (keyPred u) with
  | some p => rw [hf] at h; simp at h
  | none => rfl

theorem keyPred_comp_keep (u v : UeId) (f : UeId × Window → Window) :
    (keyPred u) ∘ (fun p : UeId × Window => if p.1 = v then (p.1, f p) else p) = keyPred u := by
  funext p
  by_cases h : p.1 = v <;> simp [keyPred, h]

theorem lookupW_setStart_ne (m : UeWindows) (u v : UeId) (t : ℚ) (h : u ≠ v) :
    lookupW (setStart m v t) u = lookupW m u := by
  rw [lookupW_eq_find?, lookupW_eq_find?]
  unfold setStart
  rw [List.find?_map, keyPred_comp_keep]
  cases hf : m.find? (keyPred u) with
  | some p =>
    have hp : p.1 = u := by
      have := List.find?_some hf
      simpa [keyPred] using this
    have : ¬ p.1 = v := by rw [hp]; exact h
    simp [this]
  | none => rfl

theorem lookupW_setStart_self (m : UeWindows) (u : UeId) (t : ℚ) (h : hasKey m u = true) :
    lookupW (setStart m u t) u = ⟨some t, (lookupW m u).endT⟩ := by
  rw [lookupW_eq_find?, lookupW_eq_find?]
  unfold setStart
  rw [List.find?_map, keyPred_comp_keep]
  rw [hasKey_iff_find?_isSome] at h
  cases hf : m.find? (keyPred u) with
  | some p =>
    have hp : p.1 = u := by
      have := List.find?_some hf
      simpa [keyPred] using this
    simp [hp]
  | none => rw [hf] at h; simp at h

theorem lookupW_setEnd_ne (m : UeWindows) (u v : UeId) (t : ℚ) (h : u ≠ v) :
    lookupW (setEnd m v t) u = lookupW m u := by
  rw [lookupW_eq_find?, lookupW_eq_find?]
  unfold setEnd
  rw [List.find?_map, keyPred_comp_keep]
  cases hf : m.find? (keyPred u) with
  | some p =>
    have hp : p.1 = u := by
      have := List.find?_some hf
      simpa [keyPred] using this
    have : ¬ p.1 = v := by rw [hp]; exact h
    simp [this]
  | none => rfl

theorem lookupW_setEnd_self (m : UeWindows) (u : UeId) (t : ℚ) (h : hasKey m u = true) :
    lookupW (setEnd m u t) u = ⟨(lookupW m u).start, some t⟩ := by
  rw [lookupW_eq_find?, lookupW_eq_find?]
  unfold setEnd
  rw [List.find?_map, keyPred_comp_keep]
  rw [hasKey_iff_find?_isSome] at h
  cases hf : m.find? (keyPred u) with
  | some p =>
    have hp : p.1 = u := by
      have := List.find?_some hf
      simpa [keyPred] using this
    simp [hp]
  | none => rw [hf] at h; simp at h

theorem lookupW_openEvent_ne (m : UeWindows) (u v : UeId) (t : ℚ) (h : u ≠ v) :
    lookupW (openEvent m v t) u = lookupW m u := by
  simp only [openEvent]
  split
  · rw [lookupW_setStart_ne _ _ _ _ h, lookupW_accessEntry]
  · rw [lookupW_accessEntry]

theorem lookupW_openEvent_self (m : UeWindows) (u : UeId) (t : ℚ) :
    lookupW (openEvent m u t) u =
      ⟨Option.or (lookupW m u).start (some t), (lookupW m u).endT⟩ := by
  simp only [openEvent]
  have hacc : lookupW (accessEntry m u) u = lookupW m u := lookupW_accessEntry m u u
  split
  · next hnone =>
    rw [hacc] at hnone
    rw [lookupW_setStart_self _ _ _ (hasKey_accessEntry m u), hacc, hnone]
    rfl
  · next hsome =>
    rw [hacc] at hsome
    rw [hacc]
    cases hst : (lookupW m u).start with
    | none => exact absurd hst hsome
    | some s =>
      simp only [Option.or, hst]
      rw [← hst]

theorem lookupW_closeEvent_ne (m : UeWindows) (u v : UeId) (t : ℚ) (h : u ≠ v) :
    lookupW (closeEvent m v t) u = lookupW m u := by
  simp only [closeEvent]
  split
  · rw [lookupW_setEnd_ne _ _ _ _ h, lookupW_accessEntry]
  · rw [lookupW_accessEntry]

theorem lookupW_closeEvent_self (m : UeWindows) (u : UeId) (t : ℚ) :
    lookupW (closeEvent m u t) u =
      ⟨(lookupW m u).start, Option.or (lookupW m u).endT (some t)⟩ := by
  simp only [closeEvent]
  have hacc : lookupW (accessEntry m u) u = lookupW m u := lookupW_accessEntry m u u
  split
  · next hnone =>
    rw [hacc] at hnone
    rw [lookupW_setEnd_self _ _ _ (hasKey_accessEntry m u), hacc, hnone]
    rfl
  · next hsome =>
    rw [hacc] at hsome
    rw [hacc]
    cases het : (lookupW m u).endT with
    | none => exact absurd het hsome
    | some e =>
      simp only [Option.or, het]
      rw [← het]

/-- `start` of any entity is untouched by a close event. -/
theorem start_closeEvent (m : UeWindows) (u v : UeId) (t : ℚ) :
    (lookupW (closeEvent m v t) u).start = (lookupW m u).start := by
  by_cases h : u = v
  · subst h; rw [lookupW_closeEvent_self]
  · rw [lookupW_closeEvent_ne _ _ _ _ h]

/-- `end` of any entity is untouched by an open event. -/
theorem endT_openEvent (m : UeWindows) (u v : UeId) (t : ℚ) :
    (lookupW (openEvent m v t) u).endT = (lookupW m u).endT := by
  by_cases h : u = v
  · subst h; rw [lookupW_openEvent_self]
  · rw [lookupW_openEvent_ne _ _ _ _ h]

/-- Effect of the suci block on the `start` field of entity `u`. -/
theorem start_suciStep (m : UeWindows) (l : List Char) (t : ℚ) (u : UeId) :
    (lookupW (suciStep m l t) u).start =
      if searchSuci l = some u then Option.or (lookupW m u).start (some t)
      else (lookupW m u).start := by
  unfold suciStep
  cases hs : searchSuci l with
  | none => simp
  | some v =>
    by_cases huv : u = v
    · subst huv
      rw [lookupW_openEvent_self]
      simp
    · have hvu : ¬ v = u := fun h => huv h.symm
      rw [lookupW_openEvent_ne _ _ _ _ huv]
      simp [hvu]

/-- The suci block never touches `end`. -/
theorem endT_suciStep (m : UeWindows) (l : List Char) (t : ℚ) (u : UeId) :
    (lookupW (suciStep m l t) u).endT = (lookupW m u).endT := by
  unfold suciStep
  cases hs : searchSuci l with
  | none => rfl
  | some v => exact endT_openEvent m u v t

/-- The imsi block never touches `start`. -/
theorem start_imsiStep (m : UeWindows) (l : List Char) (t : ℚ) (u : UeId) :
    (lookupW (imsiStep m l t) u).start = (lookupW m u).start := by
  unfold imsiStep
  cases hi : searchImsi l with
  | none => rfl
  | some w =>
    show (lookupW (if containsSub regCompleteStr l then closeEvent m w t else m) u).start =
      (lookupW m u).start
    split
    · exact start_closeEvent m u w t
    · rfl

/-- Effect of the imsi block on the `end` field of entity `u`. -/
theorem endT_imsiStep (m : UeWindows) (l : List Char) (t : ℚ) (u : UeId) :
    (lookupW (imsiStep m l t) u).endT =
      if searchImsi l = some u ∧ containsSub regCompleteStr l = true then
        Option.or (lookupW m u).endT (some t)
      else (lookupW m u).endT := by
  unfold imsiStep
  cases hi : searchImsi l with
  | none => simp
  | some w =>
    show (lookupW (if containsSub regCompleteStr l then closeEvent m w t else m) u).endT =
      if some w = some u ∧ containsSub regCompleteStr l = true then
        Option.or (lookupW m u).endT (some t)
      else (lookupW m u).endT
    by_cases hsub : containsSub regCompleteStr l = true
    · rw [if_pos hsub]
      by_cases huw : u = w
      · subst huw
        rw [lookupW_closeEvent_self]
        simp [hsub]
      · have hwu : ¬ some w = some u := fun hc => huw (Option.some.inj hc).symm
        rw [lookupW_closeEvent_ne _ _ _ _ huw]
        simp [hwu]
    · rw [if_neg hsub]
      simp [hsub]

/-- Effect of one processed line on the `start` field of entity `u`. -/
theorem start_processLine (m : UeWindows) (l : List Char) (t : ℚ) (u : UeId) :
    (lookupW (processLine m l t) u).start =
      if searchSuci l = some u then Option.or (lookupW m u).start (some t)
      else (lookupW m u).start := by
  unfold processLine
  rw [start_imsiStep, start_suciStep]

/-- Effect of one processed line on the `end` field of entity `u`. -/
theorem endT_processLine (m : UeWindows) (l : List Char) (t : ℚ) (u : UeId) :
    (lookupW (processLine m l t) u).endT =
      if searchImsi l = some u ∧ containsSub regCompleteStr l = true then
        Option.or (lookupW m u).endT (some t)
      else (lookupW m u).endT := by
  unfold processLine
  rw [endT_imsiStep, endT_suciStep]

/-- First-match characterisation of `start` over a whole line sequence:
the `start` of entity `u` after processing `ls` from state `m` is its old
value if set, otherwise the timestamp of the first open-marker match for
`u` in `ls`. -/
theorem start_processLines (ls : List (List Char × ℚ)) (m : UeWindows) (u : UeId) :
    (lookupW (processLines m ls) u).start =
      Option.or (lookupW m u).start ((ls.find? (openMarks u)).map (·.2)) := by
  induction ls generalizing m with
  | nil => simp [processLines, Option.or_none]
  | cons p rest ih =>
    obtain ⟨l, t⟩ := p
    show (lookupW (processLines (processLine m l t) rest) u).start = _
    rw [ih, start_processLine]
    by_cases hp : searchSuci l = some u
    · rw [if_pos hp, List.find?_cons_of_pos _ (by simp [openMarks, hp])]
      cases hst : (lookupW m u).start <;> simp [Option.or]
    · rw [if_neg hp, List.find?_cons_of_neg _ (by simp [openMarks, hp])]

/-- First-match characterisation of `end` over a whole line sequence. -/
theorem endT_processLines (ls : List (List Char × ℚ)) (m : UeWindows) (u : UeId) :
    (lookupW (processLines m ls) u).endT =
      Option.or (lookupW m u).endT ((ls.find? (closeMarks u)).map (·.2)) := by
  induction ls generalizing m with
  | nil => simp [processLines, Option.or_none]
  | cons p rest ih =>
    obtain ⟨l, t⟩ := p
    show (lookupW (processLines (processLine m l t) rest) u).endT = _
    rw [ih, endT_processLine]
    by_cases hp : searchImsi l = some u ∧ containsSub regCompleteStr l = true
    · rw [if_pos hp, List.find?_cons_of_pos _ (by simp [closeMarks, hp.1, hp.2])]
      cases het : (lookupW m u).endT <;> simp [Option.or]
    · rw [if_neg hp, List.find?_cons_of_neg _ (by
        simp only [closeMarks, decide_eq_true_eq]
        exact hp)]

/-- An open event for an entity whose `start` is already set is a
no-op even at the level of the underlying association list. -/
theorem openEvent_noop (m : UeWindows) (u : UeId) (t : ℚ)
    (h : (lookupW m u).start ≠ none) : openEvent m u t = m := by
  have hk : hasKey m u = true := by
    by_contra hk
    have hfalse : hasKey m u = false := by revert hk; cases hasKey m u <;> simp
    rw [lookupW_of_hasKey_false m u hfalse] at h
    exact h rfl
  simp only [openEvent]
  rw [show accessEntry m u = m from by simp [accessEntry, hk]]
  rw [if_neg h]

/-- A close event for an entity whose `end` is already set is a no-op. -/
theorem closeEvent_noop (m : UeWindows) (u : UeId) (t : ℚ)
    (h : (lookupW m u).endT ≠ none) : closeEvent m u t = m := by
  have hk : hasKey m u = true := by
    by_contra hk
    have hfalse : hasKey m u = false := by revert hk; cases hasKey m u <;> simp
    rw [lookupW_of_hasKey_false m u hfalse] at h
    exact h rfl
  simp only [closeEvent]
  rw [show accessEntry m u = m from by simp [accessEntry, hk]]
  rw [if_neg h]

theorem suciStep_noop (m : UeWindows) (l : List Char) (t : ℚ)
    (h : ∀ v, searchSuci l = some v → (lookupW m v).start ≠ none) :
    suciStep m l t = m := by
  unfold suciStep
  cases hs : searchSuci l with
  | none => rfl
  | some v => exact openEvent_noop m v t (h v hs)

theorem imsiStep_noop (m : UeWindows) (l : List Char) (t : ℚ)
    (h : ∀ v, searchImsi l = some v → containsSub regCompleteStr l = true →
      (lookupW m v).endT ≠ none) :
    imsiStep m l t = m := by
  unfold imsiStep
  cases hi : searchImsi l with
  | none => rfl
  | some w =>
    show (if containsSub regCompleteStr l then closeEvent m w t else m) = m
    by_cases hsub : containsSub regCompleteStr l = true
    · rw [if_pos hsub]
      exact closeEvent_noop m w t (h w hi hsub)
    · rw [if_neg hsub]

/-!
The claims.
-/

/-- C2: for every sequence of log lines, an entity's start timestamp is
the capture timestamp of the first line whose open-marker (suci) pattern
yields its 6-digit id (`none` when no such line exists), and processing
any further line never changes an already-set start. -/
theorem c2_start_first_open_match :
    (∀ (ls : List (List Char × ℚ)) (u : UeId),
      (lookupW (processLines emptyW ls) u).start =
        ((ls.find? (openMarks u)).map (·.2))) ∧
    (∀ (ls : List (List Char × ℚ)) (l : List Char) (t : ℚ) (u : UeId) (s : ℚ),
      (lookupW (processLines emptyW ls) u).start = some s →
      (lookupW (processLine (processLines emptyW ls) l t) u).start = some s) := by
  constructor
  · intro ls u
    rw [start_processLines]
    rfl
  · intro ls l t u s hset
    rw [start_processLine, hset]
    split <;> rfl

/-- Witness for C2: on the demo trace the start of `000001` is t = 1 and
re-processing the open-marker line at t = 9 leaves it at 1. -/
theorem c2_start_first_open_match_witness :
    (lookupW (processLines emptyW demoLines) ueA).start = some 1 ∧
    (lookupW (processLine (processLines emptyW demoLines) demoLineA 9) ueA).start = some 1 :=
  ⟨by decide, c2_start_first_open_match.2 demoLines demoLineA 9 ueA 1 (by decide)⟩

/-- C3: for every sequence of log lines, an entity's end timestamp is the
capture timestamp of the first line that both matches the close-marker
(imsi) pattern for its id and contains the literal
`"Registration complete"`; a line matching the identifier pattern but
lacking the literal never closes a window, and processing any further
line never changes an already-set end. -/
theorem c3_end_first_qualifying_close_match :
    (∀ (ls : List (List Char × ℚ)) (u : UeId),
      (lookupW (processLines emptyW ls) u).endT =
        ((ls.find? (closeMarks u)).map (·.2))) ∧
    (∀ (ls : List (List Char × ℚ)) (l : List Char) (t : ℚ) (u : UeId),
      containsSub regCompleteStr l = false →
      (lookupW (processLine (processLines emptyW ls) l t) u).endT =
        (lookupW (processLines emptyW ls) u).endT) ∧
    (∀ (ls : List (List Char × ℚ)) (l : List Char) (t : ℚ) (u : UeId) (e : ℚ),
      (lookupW (processLines emptyW ls) u).endT = some e →
      (lookupW (processLine (processLines emptyW ls) l t) u).endT = some e) := by
  refine ⟨?_, ?_, ?_⟩
  · intro ls u
    rw [endT_processLines]
    rfl
  · intro ls l t u hnosub
    rw [endT_processLine]
    have hno : ¬ (searchImsi l = some u ∧ containsSub regCompleteStr l = true) := by
      rintro ⟨-, hc⟩
      rw [hnosub] at hc
      cases hc
    rw [if_neg hno]
  · intro ls l t u e hset
    rw [endT_processLine, hset]
    split <;> rfl

/-- Witness for C3: the open-marker line (which lacks the literal) never
closes the window, and re-processing the close-marker line at t = 9
leaves the end of `000001` at 4. -/
theorem c3_end_first_qualifying_close_match_witness :
    (lookupW (processLine (processLines emptyW demoLines) demoLineA 9) ueA).endT =
      (lookupW (processLines emptyW demoLines) ueA).endT ∧
    (lookupW (processLine (processLines emptyW demoLines) demoLineB 9) ueA).endT = some 4 :=
  ⟨c3_end_first_qualifying_close_match.2.1 demoLines demoLineA 9 ueA (by decide),
    c3_end_first_qualifying_close_match.2.2 demoLines demoLineB 9 ueA 4 (by decide)⟩

/-- C8: re-feeding any line already processed (with any fresh capture
timestamp) leaves the whole window map unchanged, entry for entry. -/
theorem c8_idempotent_refeed (ls : List (List Char × ℚ)) (l : List Char)
    (t0 t1 : ℚ) (hmem : (l, t0) ∈ ls) :
    processLine (processLines emptyW ls) l t1 = processLines emptyW ls := by
  have hstart : ∀ v, searchSuci l = some v →
      (lookupW (processLines emptyW ls) v).start ≠ none := by
    intro v hv
    rw [start_processLines]
    have hsome : (ls.find? (openMarks v)).isSome :=
      List.find?_isSome.mpr ⟨(l, t0), hmem, by simp [openMarks, hv]⟩
    obtain ⟨x, hx⟩ := Option.isSome_iff_exists.mp hsome
    rw [hx]
    simp [emptyW, lookupW, Option.or]
  have hendT : ∀ v, searchImsi l = some v → containsSub regCompleteStr l = true →
      (lookupW (processLines emptyW ls) v).endT ≠ none := by
    intro v hv hsub
    rw [endT_processLines]
    have hsome : (ls.find? (closeMarks v)).isSome :=
      List.find?_isSome.mpr ⟨(l, t0), hmem, by simp [closeMarks, hv, hsub]⟩
    obtain ⟨x, hx⟩ := Option.isSome_iff_exists.mp hsome
    rw [hx]
    simp [emptyW, lookupW, Option.or]
  unfold processLine
  rw [suciStep_noop _ _ _ hstart, imsiStep_noop _ _ _ hendT]

/-- Witness for C8: re-feeding the open-marker line of the two-line demo
trace at a later timestamp changes nothing. -/
theorem c8_idempotent_refeed_witness :
    processLine (processLines emptyW demoLines) demoLineA 9 =
      processLines emptyW demoLines :=
  c8_idempotent_refeed demoLines demoLineA 1 9 (by decide)

/-- C6: the Report Writer writes the header row only when the summary
file does not yet exist and appends exactly one data row per run, so two
runs against a fresh path yield one header and the two data rows in run
order, the earlier content unchanged. -/
theorem c6_summary_append (s1 s2 : Summary) :
    appendSummaryFile none s1 = [.header, .data s1] ∧
    (∀ (rows : List SummaryLine) (s : Summary),
      appendSummaryFile (some rows) s = rows ++ [.data s]) ∧
    appendSummaryFile (some (appendSummaryFile none s1)) s2 =
      [.header, .data s1, .data s2] ∧
    headerCount (appendSummaryFile (some (appendSummaryFile none s1)) s2) = 1 ∧
    dataRows (appendSummaryFile (some (appendSummaryFile none s1)) s2) = [s1, s2] :=
  ⟨rfl, fun _ _ => rfl, rfl, rfl, rfl⟩

/-- C7 counterexample: the claim says both writes fsync before the writer
returns, but only the summary-file write issues an fsync; the per-UE
detail write never does (shown here at 3 detail rows). -/
theorem c7_counterexample :
    FileOp.fsync ∈ summaryWriteOps true ∧ FileOp.fsync ∉ perUeWriteOps 3 := by
  decide

/-- C7 amended: the summary write flushes and forces to stable storage
before returning; the per-UE detail write is closed (flushed to the OS)
but never fsynced, for any number of detail rows. -/
theorem c7_amended :
    (∀ b, FileOp.flush ∈ summaryWriteOps b ∧ FileOp.fsync ∈ summaryWriteOps b) ∧
    (∀ n, FileOp.fsync ∉ perUeWriteOps n) ∧
    (∀ n, FileOp.close ∈ perUeWriteOps n) := by
  refine ⟨fun b => by cases b <;> decide, fun n => ?_, fun n => ?_⟩
  · simp [perUeWriteOps, List.mem_append, List.mem_replicate]
  · simp [perUeWriteOps]

/-- C10: with an empty sample store, `analyze_and_write` returns at its
first guard with a warning and writes nothing, even when complete entity
windows exist. -/
theorem c10_empty_sample_store (wins : UeWindows) (_h : completeRows wins ≠ []) :
    analyze wins [] = .warnNoSamples ∧ writesOutput (analyze wins []) = false :=
  ⟨rfl, rfl⟩

/-- Witness for C10: the empty sample store short-circuits even though
`c5Wins` holds a complete window. -/
theorem c10_empty_sample_store_witness :
    analyze c5Wins [] = .warnNoSamples ∧ writesOutput (analyze c5Wins []) = false :=
  c10_empty_sample_store c5Wins (by with_unfolding_all decide)

/-- C1: the claim expects the stop signal to be observed by both loops.
The signal handler does halt the sampler (its loop guard is false once
the flags are set), but `monitor_log`'s loop consults no stop flag: its
only exit is the completed-count break, so with 1 of 3 expected windows
complete and no further log lines it loops forever — however long we
observe it — and `analyze_and_write` (invoked only after `monitor_log`
returns) is never reached. -/
theorem c1_tracker_ignores_stop_flag :
    (∀ f, samplerContinues (handleSignal f) = false) ∧
    countCompleted c1Windows = 1 ∧
    (∀ n, monitorLoop 3 c1Windows (List.replicate n none) = none) := by
  refine ⟨fun f => rfl, rfl, fun n => ?_⟩
  induction n with
  | zero => rfl
  | succ k ih =>
    rw [List.replicate_succ]
    show monitorLoop 3 c1Windows (List.replicate k none) = none
    exact ih

/-- C4: on the spec's aggregate test — windows [0,2], [1,3], [2,5] and
1 Hz samples with CPU = 10, memory = 100 over t = 0..5 — the correlator
computes the global window [0,5] from complete windows only, keeps all 6
samples of the inclusive interval, and reports avg CPU 10, avg memory
100 and avg entity duration 7/3 (2.333 after the 3-decimal rounding of
the summary row). -/
theorem c4_aggregate_correctness :
    analyze c4Wins c4Samples =
      .written ⟨3, 5, 2333 / 1000, 10, 100⟩ c4Rows ∧
    globalStart (completeRows c4Wins) = 0 ∧
    globalEnd (completeRows c4Wins) = 5 ∧
    (globalSamples (completeRows c4Wins) c4Samples).length = 6 ∧
    ((completeRows c4Wins).map (·.duration)).sum / ((completeRows c4Wins).length : ℚ)
      = 7 / 3 := by
  with_unfolding_all decide

/-- C5 counterexample: with the complete window [10,20] and a single
sample at t = 0 (outside the global window), the code takes the
no-samples-in-window early return and writes no file at all, refuting
the claim that a summary with absent CPU/memory fields is still
produced. -/
theorem c5_counterexample :
    completeRows c5Wins ≠ [] ∧
    globalSamples (completeRows c5Wins) c5Samples = [] ∧
    analyze c5Wins c5Samples = .warnNoSamplesInWindow ∧
    writesOutput (analyze c5Wins c5Samples) = false := by
  with_unfolding_all decide

/-- C5 amended: both kinds of correlation emptiness end in a warning
with no output file written — when no window is complete, and also when
complete windows exist but no sample lies in the global window (in the
latter case no summary with absent fields is produced either). -/
theorem c5_amended (wins : UeWindows) (samples : List Sample)
    (hs : samples ≠ []) :
    (completeRows wins = [] →
      analyze wins samples = .warnNoCompleteWindows ∧
      writesOutput (analyze wins samples) = false) ∧
    (completeRows wins ≠ [] →
      globalSamples (completeRows wins) samples = [] →
      analyze wins samples = .warnNoSamplesInWindow ∧
      writesOutput (analyze wins samples) = false) := by
  have hse : samples.isEmpty = false := List.isEmpty_eq_false.mpr hs
  constructor
  · intro hrows
    have h1 : analyze wins samples = .warnNoCompleteWindows := by
      simp [analyze, hse, hrows]
    exact ⟨h1, by rw [h1]; rfl⟩
  · intro hrows hglob
    have hre : (completeRows wins).isEmpty = false := List.isEmpty_eq_false.mpr hrows
    have h1 : analyze wins samples = .warnNoSamplesInWindow := by
      simp [analyze, hse, hre, hglob]
    exact ⟨h1, by rw [h1]; rfl⟩

/-- Witness for C5 amended: the incomplete-window map triggers the
no-complete-windows warning; the window [10,20] with only a sample at
t = 0 triggers the no-samples-in-window warning. -/
theorem c5_amended_witness :
    analyze c5IncompleteWins c5Samples = .warnNoCompleteWindows ∧
    analyze c5Wins c5Samples = .warnNoSamplesInWindow :=
  ⟨((c5_amended c5IncompleteWins c5Samples (by decide)).1
      (by with_unfolding_all decide)).1,
    ((c5_amended c5Wins c5Samples (by decide)).2
      (by with_unfolding_all decide) (by with_unfolding_all decide)).1⟩

/-- C9: in a correctly ordered log — non-decreasing capture timestamps,
and every qualifying close-marker line for an entity preceded (or
accompanied) by an open-marker line for it — every closed window has
`end >= start`; and when a window nonetheless closes reversed, the
correlator still returns normally, reporting the negative duration (-3
for the window [5,2]) in its output. -/
theorem c9_monotone_and_negative_duration :
    (∀ ls : List (List Char × ℚ),
      List.Pairwise (fun p q => p.2 ≤ q.2) ls →
      ∀ u : UeId,
        (∀ C y D, ls = C ++ y :: D →
          searchImsi y.1 = some u ∧ containsSub regCompleteStr y.1 = true →
          ∃ z ∈ C ++ [y], searchSuci z.1 = some u) →
        ∀ s e, (lookupW (processLines emptyW ls) u).start = some s →
          (lookupW (processLines emptyW ls) u).endT = some e → s ≤ e) ∧
    analyze c9Wins c9Samples =
      .written ⟨2, 10, 7 / 2, 4, 8⟩ [⟨ueA, 5, 2, -3⟩, ⟨ueB, 0, 10, 10⟩] := by
  constructor
  · intro ls hmono u horder s e hs he
    rw [start_processLines] at hs
    rw [endT_processLines] at he
    have hs2 : (ls.find? (openMarks u)).map (·.2) = some s := by
      have h0 : (lookupW emptyW u).start = none := rfl
      rwa [h0, Option.none_or] at hs
    have he2 : (ls.find? (closeMarks u)).map (·.2) = some e := by
      have h0 : (lookupW emptyW u).endT = none := rfl
      rwa [h0, Option.none_or] at he
    obtain ⟨po, hpo, hpos⟩ := Option.map_eq_some'.mp hs2
    obtain ⟨pc, hpc, hpce⟩ := Option.map_eq_some'.mp he2
    obtain ⟨hppo, A, B, hAB, hAall⟩ := List.find?_eq_some.mp hpo
    obtain ⟨hppc, C, D, hCD, hCall⟩ := List.find?_eq_some.mp hpc
    have hclose : searchImsi pc.1 = some u ∧ containsSub regCompleteStr pc.1 = true := by
      simpa [closeMarks] using hppc
    obtain ⟨z, hzmem, hzopen⟩ := horder C pc D hCD hclose
    have happ : A ++ po :: B = C ++ pc :: D := by rw [← hAB, ← hCD]
    rcases List.append_eq_append_iff.mp happ with ⟨a2, hC, hrest⟩ | ⟨c2, hA, hrest⟩
    · cases a2 with
      | nil =>
        rw [List.nil_append] at hrest
        injection hrest with hpe hBD
        rw [← hpos, ← hpce, hpe]
      | cons h2 t2 =>
        rw [List.cons_append] at hrest
        injection hrest with hph hB
        have hpcB : pc ∈ B := by
          rw [hB]
          exact List.mem_append.mpr (Or.inr (List.mem_cons_self _ _))
        have hpw : List.Pairwise (fun p q : List Char × ℚ => p.2 ≤ q.2) (po :: B) := by
          rw [hAB] at hmono
          exact List.Pairwise.sublist (List.sublist_append_right A (po :: B)) hmono
        have hle := (List.pairwise_cons.mp hpw).1 pc hpcB
        rw [← hpos, ← hpce]
        exact hle
    · cases c2 with
      | nil =>
        rw [List.nil_append] at hrest
        injection hrest with hpe hDB
        rw [← hpos, ← hpce, hpe]
      | cons h2 t2 =>
        rw [List.cons_append] at hrest
        injection hrest with hph hD
        exfalso
        have hzA : z ∈ A := by
          rw [hA, ← hph]
          rcases List.mem_append.mp hzmem with hzC | hzpc
          · exact List.mem_append.mpr (Or.inl hzC)
          · have hzeq : z = pc := by simpa using hzpc
            exact List.mem_append.mpr (Or.inr (by rw [hzeq]; exact List.mem_cons_self _ _))
        have hfalse := hAall z hzA
        rw [openMarks] at hfalse
        simp [hzopen] at hfalse
  · with_unfolding_all decide

/-- Witness for C9: on the two-line demo trace (open at t = 1, close at
t = 4) the hypotheses hold and the theorem yields 1 <= 4 for the closed
window of entity `000001`. -/
theorem c9_monotone_witness :
    (lookupW (processLines emptyW demoLines) ueA).start = some 1 ∧
    (lookupW (processLines emptyW demoLines) ueA).endT = some 4 ∧
    (1 : ℚ) ≤ 4 := by
  refine ⟨by decide, by decide, ?_⟩
  refine c9_monotone_and_negative_duration.1 demoLines ?_ ueA ?_ 1 4 (by decide) (by decide)
  · refine List.Pairwise.cons (fun q hq => ?_) (List.Pairwise.cons (fun q hq => ?_) List.Pairwise.nil)
    · have : q = (demoLineB, (4 : ℚ)) := by simpa using hq
      rw [this]
      norm_num
    · simp at hq
  · intro C y D hEq hcl
    have h2 : (demoLineA, (1 : ℚ)) :: [(demoLineB, (4 : ℚ))] = C ++ y :: D := hEq
    rcases C with _ | ⟨c1, C⟩
    · rw [List.nil_append] at h2
      injection h2 with hy hD
      rw [← hy] at hcl
      exact absurd hcl.1 (by decide)
    · rw [List.cons_append] at h2
      injection h2 with hc1 h3
      rcases C with _ | ⟨c2, C⟩
      · rw [List.nil_append] at h3
        injection h3 with hy hD
        refine ⟨(demoLineA, 1), ?_, by decide⟩
        rw [← hc1]
        exact List.mem_append.mpr (Or.inl (List.mem_cons_self _ _))
      · rw [List.cons_append] at h3
        injection h3 with hc2 h4
        exact absurd h4.symm (by simp)

end Monitor
